import Mathlib

/-!
Verification development for the CBICQC quality-control pipeline.

The definitions below are shallow embeddings of the numeric core of the
repository: the ROI builder (cbicqc/rois.py), the motion estimator and
motion post-processor (cbicqc/moco.py), the timeseries extractor
(cbicqc/timeseries.py) and the legacy detrending script
(cbicqa_detrend.py).  Volumes are modelled as functions from voxel
indices, machine floats as rationals (reals where pi is involved), and
calls into external tools or libraries (FSL FLIRT, scipy shift /
center_of_mass / filtfilt / Rotation) as explicit function parameters,
so that every repository-side computation is spelled out while the
external behaviour stays abstract.
-/

namespace CBICQC

/-- Voxel index of a 3-D volume of shape nx × ny × nz. -/
abbrev Voxel (nx ny nz : ℕ) := Fin nx × Fin ny × Fin nz

/-- Index arithmetic of numpy.roll along one axis: the voxel at index y of
the rolled array is the voxel at index (y - k) mod n of the source array. -/
def rollIdx {n : ℕ} (k : ℕ) (y : Fin n) : Fin n :=
  ⟨(y.val + (n - k % n)) % n, Nat.mod_lt _ y.pos⟩

/-- Buffer mask of make_rois (rois.py line 140): voxels with label > 0. -/
def buffer_mask {nx ny nz : ℕ} (labels : Voxel nx ny nz → ℕ) (v : Voxel nx ny nz) : ℕ :=
  if labels v > 0 then 1 else 0

/-- Signal mask of make_rois (rois.py line 141): voxels with label > 1. -/
def signal_mask {nx ny nz : ℕ} (labels : Voxel nx ny nz → ℕ) (v : Voxel nx ny nz) : ℕ :=
  if labels v > 1 then 1 else 0

/-- Nyquist mask of make_rois (rois.py lines 143-145): the signal mask
rolled by floor(ny / 2) along axis 1. -/
def nyquist_mask {nx ny nz : ℕ} (labels : Voxel nx ny nz → ℕ) (v : Voxel nx ny nz) : ℕ :=
  signal_mask labels (v.1, rollIdx (ny / 2) v.2.1, v.2.2)

/-- Nyquist-only mask (rois.py line 148): the rolled mask with the buffer
mask removed. -/
def nyquist_only_mask {nx ny nz : ℕ} (labels : Voxel nx ny nz → ℕ) (v : Voxel nx ny nz) : ℕ :=
  nyquist_mask labels v * (1 - buffer_mask labels v)

/-- Air mask (rois.py line 151).  The source computes this in uint8; since
nyquist_only_mask is bounded by 1 - buffer_mask, no wrap-around occurs and
truncated natural subtraction is exact. -/
def air_mask {nx ny nz : ℕ} (labels : Voxel nx ny nz → ℕ) (v : Voxel nx ny nz) : ℕ :=
  (1 - buffer_mask labels v) - nyquist_only_mask labels v

/-- ROI label volume of make_rois (rois.py line 158):
undefined = 0, air = 1, Nyquist ghost = 2, signal = 3. -/
def make_rois {nx ny nz : ℕ} (labels : Voxel nx ny nz → ℕ) (v : Voxel nx ny nz) : ℕ :=
  air_mask labels v + 2 * nyquist_only_mask labels v + 3 * signal_mask labels v

/-- The all-zero 2 × 2 × 2 label input used as a concrete test volume. -/
def zeroLabels : Voxel 2 2 2 → ℕ := fun _ => 0

/-- Embedding of register_template (rois.py lines 40-124).  Both branches
delegate the registration to the external FSL FLIRT tool, modelled by the
oracle argument flirt taking the template name, the degrees of freedom and
the reference (temporal-mean) volume.  In phantom mode the fbirn template
is registered with 6 DOF, otherwise the mni template, also with 6 DOF; the
membership test of the string phantom in the mode argument is modelled by
the boolean phantomMode. -/
def register_template {Vol Lab : Type} (flirt : String → ℕ → Vol → Lab)
    (tmean : Vol) (phantomMode : Bool) : Lab :=
  if phantomMode then flirt "fbirn_template" 6 tmean
  else flirt "mni_template_brain" 6 tmean

/-- Embedding of extract_timeseries (timeseries.py lines 38-40): the body
is a stub that returns the empty list for every input. -/
def extract_timeseries {Vol Lab Trace : Type} (qc_moco : Vol) (roi_labels : Lab) : List Trace :=
  []

/-- Insert a value into a sorted list, keeping it sorted. -/
def insertSorted (x : ℚ) : List ℚ → List ℚ
  | [] => [x]
  | y :: ys => if x ≤ y then x :: y :: ys else y :: insertSorted x ys

/-- Ascending insertion sort of a list of rationals. -/
def sortAsc (xs : List ℚ) : List ℚ :=
  xs.foldr insertSorted []

/-- Embedding of numpy.median: the middle element of the sorted data for
odd length, the mean of the two middle elements for even length.  For the
empty list numpy returns NaN; the value 0 returned here is a modelling
artifact and every claim below applies the median to nonempty data. -/
def npMedian (xs : List ℚ) : ℚ :=
  let s := sortAsc xs
  let n := s.length
  if n % 2 = 1 then s.getD (n / 2) 0
  else (s.getD (n / 2 - 1) 0 + s.getD (n / 2) 0) / 2

/-- Robust residual scale of cbicqa_detrend.py lines 70-72:
numpy.median(numpy.abs(res)) * 1.4826. -/
def res_sd (res : List ℚ) : ℚ :=
  npMedian (res.map (fun r => |r|)) * (14826 / 10000)

/-- Spike count of cbicqa_detrend.py lines 75-77:
(numpy.abs(res) > 5 * res_sd).sum(). -/
def spike_count (res : List ℚ) : ℕ :=
  res.countP (fun r => |r| > 5 * res_sd res)

/-- Median absolute deviation in the classical sense of the spec wording:
the median of the absolute deviations of the data from its median.  This
definition follows the words of the spec and is compared against the
res_sd computation of the source. -/
def spec_mad (xs : List ℚ) : ℚ :=
  npMedian (xs.map (fun x => |x - npMedian xs|))

/-- Median absolute deviation about zero: the median of the absolute
deviations of the data from zero. -/
def mad_about_zero (xs : List ℚ) : ℚ :=
  npMedian (xs.map (fun x => |x - 0|))

/-- Column j of an nt × 6 motion-parameter array
(order Rx, Ry, Rz, Tx, Ty, Tz, the FSL MCFLIRT convention). -/
def column (pars : List (Fin 6 → ℚ)) (j : Fin 6) : List ℚ :=
  pars.map (fun r => r j)

/-- Embedding of numpy.diff: successive differences of a sequence. -/
def npDiff (xs : List ℚ) : List ℚ :=
  List.zipWith (fun a b => b - a) xs xs.tail

/-- Backward difference with leading zero
(numpy.insert(numpy.diff(x), 0, 0), moco.py lines 240-246). -/
def backdiff (xs : List ℚ) : List ℚ :=
  0 :: npDiff xs

/-- Elementwise sum of two sequences. -/
def vadd (a b : List ℚ) : List ℚ :=
  List.zipWith (· + ·) a b

/-- Elementwise absolute value of a sequence (numpy.abs). -/
def vabs (a : List ℚ) : List ℚ :=
  a.map (fun x => |x|)

/-- Elementwise scaling of a sequence by a constant. -/
def vsmul (c : ℚ) (a : List ℚ) : List ℚ :=
  a.map (fun x => c * x)

/-- Effective sphere radius in mm (moco.py line 249). -/
def r_sphere : ℚ := 50

/-- Framewise displacement trace of calc_fd (moco.py lines 228-250):
fd = |dtx| + |dty| + |dtz| + r_sphere * (|drx| + |dry| + |drz|), where the
d-columns are backward differences with leading zero. -/
def fd_trace (pars : List (Fin 6 → ℚ)) : List ℚ :=
  vadd
    (vadd (vadd (vabs (backdiff (column pars 3))) (vabs (backdiff (column pars 4))))
      (vabs (backdiff (column pars 5))))
    (vsmul r_sphere
      (vadd (vadd (vabs (backdiff (column pars 0))) (vabs (backdiff (column pars 1))))
        (vabs (backdiff (column pars 2)))))

/-- Embedding of butterworth_lpf (moco.py lines 262-282) at the level of
design validity.  The source calls scipy.signal.butter with order 5,
critical frequency 0.2 Hz and sampling rate fs = 1 / TR; for a digital
design scipy requires 0 < fc < fs / 2 and raises ValueError otherwise.
The filter coefficients themselves are transcendental and are not used by
any claim, so a successful design is represented by Except.ok. -/
def butterworth_lpf (TR : ℚ) : Except String Unit :=
  let fs := 1 / TR
  let fc : ℚ := 2 / 10
  if 0 < fc ∧ fc < fs / 2 then Except.ok ()
  else Except.error "Digital filter critical frequencies must be 0 < Wn < fs/2"

/-- Embedding of calc_fd (moco.py lines 207-259): computes the framewise
displacement trace, designs the 0.2 Hz Butterworth filter for the given TR
and applies the forward-backward filter, modelled by the oracle argument
filtfilt.  A ValueError raised by the scipy filter design propagates as
Except.error. -/
def calc_fd (filtfilt : List ℚ → List ℚ) (pars : List (Fin 6 → ℚ)) (TR : ℚ) :
    Except String (List ℚ × List ℚ) :=
  let fd := fd_trace pars
  match butterworth_lpf TR with
  | Except.ok _ => Except.ok (fd, filtfilt fd)
  | Except.error e => Except.error e

/-- Embedding of the FD part of moco_postprocess (moco.py lines 187-199):
in phantom mode both FD columns are zero-filled, otherwise calc_fd is
called; the assembly of the dataframe around the FD columns carries no
further computation and is not modelled. -/
def moco_postprocess (filtfilt : List ℚ → List ℚ) (pars : List (Fin 6 → ℚ))
    (TR : ℚ) (mode : String) : Except String (List ℚ × List ℚ) :=
  if mode = "phantom" then
    Except.ok (List.replicate pars.length 0, List.replicate pars.length 0)
  else calc_fd filtfilt pars TR

/-- Embedding of moco_phantom (moco.py lines 39-85) over an abstract frame
type.  The external scipy operations are oracle arguments: clip for the
percentile clipping of the 4-D array, com for center_of_mass of one frame
and shiftf for the spline translation of one frame.  Frame 0 is copied
unchanged and its motion record stays all zero; every later frame tc is
shifted by the centroid difference com_0 - com_t, and the translation
columns 3..5 of its motion record receive that difference scaled by the
voxel size. -/
def moco_phantom {α : Type} (dflt : α) (clip : List α → List α)
    (com : α → Fin 3 → ℚ) (shiftf : α → (Fin 3 → ℚ) → α) (vox_mm : Fin 3 → ℚ)
    (img : List α) : List α × List (Fin 6 → ℚ) :=
  let img_clip := clip img
  let nt := img.length
  let com_0 : Fin 3 → ℚ := com (img_clip.getD 0 dflt)
  let moco_img := (List.range nt).map (fun tc =>
    if tc = 0 then img.getD 0 dflt
    else
      shiftf (img.getD tc dflt)
        (fun i => com_0 i - com (img_clip.getD tc dflt) i))
  let moco_pars : List (Fin 6 → ℚ) := (List.range nt).map (fun tc =>
    if tc = 0 then (fun _ => 0)
    else
      fun j : Fin 6 =>
        if h : j.val < 3 then 0
        else
          (com_0 ⟨j.val - 3, by omega⟩ -
              com (img_clip.getD tc dflt) ⟨j.val - 3, by omega⟩) *
            vox_mm ⟨j.val - 3, by omega⟩)
  (moco_img, moco_pars)

/-- Embedding of total_rotation (moco.py lines 136-168) as explicit state
passing.  The source first rescales the caller-supplied nt × 3 rotation
array in place (rot *= numpy.pi / 180) and then reads the rescaled rows;
the second component of the result is the final contents of that array.
The scipy rotation composition (norm of the rotation vector of
Rx * Ry * Rz) is the oracle argument phi_of. -/
noncomputable def total_rotation (phi_of : (Fin 3 → ℝ) → ℝ)
    (rot : List (Fin 3 → ℝ)) : List ℝ × List (Fin 3 → ℝ) :=
  let rot2 := rot.map (fun r i => r i * (Real.pi / 180))
  (rot2.map (fun r => phi_of r * (180 / Real.pi)), rot2)

/-- Concrete one-row rotation array holding 180 degrees about each axis. -/
noncomputable def degRow : Fin 3 → ℝ := fun _ => 180

/-- Concrete two-frame motion-parameter table: frame 0 all zero, frame 1
with parameter j equal to j. -/
def demoPars : List (Fin 6 → ℚ) :=
  [fun _ => 0, fun j => (j.val : ℚ)]

end CBICQC

namespace CBICQC

/-- Each voxel of a make_rois output falls in one of the four categories. -/
theorem make_rois_mem {nx ny nz : ℕ} (labels : Voxel nx ny nz → ℕ) (v : Voxel nx ny nz) :
    make_rois labels v = 0 ∨ make_rois labels v = 1 ∨
      make_rois labels v = 2 ∨ make_rois labels v = 3 := by
  unfold make_rois air_mask nyquist_only_mask nyquist_mask buffer_mask signal_mask
  split_ifs <;> omega

/-- Claim C1: every voxel of the ROI label volume produced by make_rois from
a nonnegative integer label input is assigned exactly one of the four
categories undefined (0), air (1), ghost (2), signal (3), and therefore the
voxel counts of the four categories sum to the total voxel count of the
volume. -/
theorem make_rois_partition (nx ny nz : ℕ) (labels : Voxel nx ny nz → ℕ) :
    (∀ v, make_rois labels v ∈ ({0, 1, 2, 3} : Finset ℕ)) ∧
    (Finset.univ.filter (fun v => make_rois labels v = 0)).card
      + (Finset.univ.filter (fun v => make_rois labels v = 1)).card
      + (Finset.univ.filter (fun v => make_rois labels v = 2)).card
      + (Finset.univ.filter (fun v => make_rois labels v = 3)).card
      = nx * ny * nz := by
  have hmem : ∀ v : Voxel nx ny nz, make_rois labels v ∈ ({0, 1, 2, 3} : Finset ℕ) := by
    intro v
    simp only [Finset.mem_insert, Finset.mem_singleton]
    exact make_rois_mem labels v
  refine ⟨hmem, ?_⟩
  have hcard : (Finset.univ : Finset (Voxel nx ny nz)).card
      = ∑ c ∈ ({0, 1, 2, 3} : Finset ℕ),
        (Finset.univ.filter (fun v : Voxel nx ny nz => make_rois labels v = c)).card :=
    Finset.card_eq_sum_card_fiberwise (fun v _ => hmem v)
  have hexp : ∑ c ∈ ({0, 1, 2, 3} : Finset ℕ),
      (Finset.univ.filter (fun v : Voxel nx ny nz => make_rois labels v = c)).card
      = (Finset.univ.filter (fun v : Voxel nx ny nz => make_rois labels v = 0)).card
        + ((Finset.univ.filter (fun v : Voxel nx ny nz => make_rois labels v = 1)).card
          + ((Finset.univ.filter (fun v : Voxel nx ny nz => make_rois labels v = 2)).card
            + (Finset.univ.filter (fun v : Voxel nx ny nz => make_rois labels v = 3)).card)) := by
    rw [Finset.sum_insert (by decide), Finset.sum_insert (by decide),
      Finset.sum_insert (by decide), Finset.sum_singleton]
  have htot : (Finset.univ : Finset (Voxel nx ny nz)).card = nx * ny * nz := by
    simp [Finset.card_univ]
    ring
  omega

/-- Claim C8: the ghost mask and the signal mask of make_rois are disjoint:
for every input label volume the set of voxels carrying both masks has
cardinality zero. -/
theorem ghost_signal_disjoint (nx ny nz : ℕ) (labels : Voxel nx ny nz → ℕ) :
    (Finset.univ.filter
      (fun v => nyquist_only_mask labels v ≠ 0 ∧ signal_mask labels v ≠ 0)).card = 0 := by
  rw [Finset.card_eq_zero, Finset.filter_eq_empty_iff]
  intro v _
  unfold nyquist_only_mask nyquist_mask buffer_mask signal_mask
  split_ifs <;> omega

/-- Claim C2 counterexample: on the all-zero 2 × 2 × 2 input volume (whose
derived signal mask is empty) make_rois raises nothing and does return a
label volume, namely the volume labelling every voxel as air (1). -/
theorem make_rois_zero_returns_volume :
    (∀ v : Voxel 2 2 2, make_rois zeroLabels v = 1) ∧
    (Finset.univ.filter (fun v : Voxel 2 2 2 => signal_mask zeroLabels v ≠ 0)).card = 0 := by
  constructor
  · decide
  · decide

/-- Claim C2 amended: for an all-zero input label volume of any shape,
make_rois signals no error and returns the label volume assigning every
voxel to the air category (1), with an empty signal mask. -/
theorem make_rois_zero_all_air (nx ny nz : ℕ) :
    (∀ v : Voxel nx ny nz, make_rois (fun _ => 0) v = 1) ∧
    (∀ v : Voxel nx ny nz, signal_mask (fun _ => 0) v = 0) := by
  constructor <;> intro v <;> rfl

/-- Claim C3 counterexample: in phantom mode the signal mask of the ROI
builder is not a function of the reference volume alone, so in particular
it is not obtained from the reference volume by any pure image-processing
recipe (thresholding at 10 percent of the 99th percentile, erosion, then
dilation).  Two different behaviours of the external FLIRT registration
oracle yield two different signal masks for the same reference volume. -/
theorem phantom_signal_mask_not_pure :
    ¬ ∃ f : Unit → (Voxel 1 1 1 → ℕ),
      ∀ (flirt : String → ℕ → Unit → (Voxel 1 1 1 → ℕ)) (tmean : Unit),
        (fun v => signal_mask (register_template flirt tmean true) v) = f tmean := by
  rintro ⟨f, hf⟩
  have h0 := hf (fun _ _ _ => fun _ => 0) ()
  have h2 := hf (fun _ _ _ => fun _ => 2) ()
  have h02 := h0.trans h2.symm
  have := congrFun h02 (⟨0, by norm_num⟩, ⟨0, by norm_num⟩, ⟨0, by norm_num⟩)
  simp [signal_mask, register_template] at this

/-- Helper: a make_rois voxel is labelled signal (3) exactly when its input
label exceeds 1. -/
theorem make_rois_eq_three_iff {nx ny nz : ℕ} (labels : Voxel nx ny nz → ℕ)
    (v : Voxel nx ny nz) :
    make_rois labels v = 3 ↔ labels v > 1 := by
  unfold make_rois air_mask nyquist_only_mask nyquist_mask buffer_mask signal_mask
  split_ifs <;> omega

/-- Claim C3 amended: in phantom mode the ROI builder obtains its label
volume by externally registering the bundled template to the reference
volume (FLIRT, 6 DOF), and the signal mask is read off the registered
label volume: a voxel is labelled signal by make_rois exactly when its
registered template label exceeds 1.  No thresholding or morphology of the
reference volume takes place. -/
theorem phantom_signal_from_registered_labels (nx ny nz : ℕ) {Vol : Type}
    (flirt : String → ℕ → Vol → (Voxel nx ny nz → ℕ)) (tmean : Vol) (v : Voxel nx ny nz) :
    (make_rois (register_template flirt tmean true) v = 3
        ↔ register_template flirt tmean true v > 1) ∧
    (signal_mask (register_template flirt tmean true) v = 1
        ↔ register_template flirt tmean true v > 1) ∧
    register_template flirt tmean true = flirt "fbirn_template" 6 tmean := by
  refine ⟨make_rois_eq_three_iff _ v, ?_, rfl⟩
  unfold signal_mask
  split_ifs <;> simp_all

/-- Helper: counting the elements of a list that satisfy a predicate is
the same as counting the index positions whose element satisfies it. -/
theorem length_filter_eq_range {α : Type} (p : α → Bool) (d : α) :
    ∀ l : List α, (l.filter p).length
      = ((List.range l.length).filter (fun t => p (l.getD t d))).length := by
  intro l
  induction l with
  | nil => rfl
  | cons a l ih =>
    simp only [List.length_cons, List.range_succ_eq_map, List.filter_cons,
      List.getD_cons_zero, List.filter_map, Function.comp_def, List.getD_cons_succ]
    by_cases h : p a <;> simp [h, ih]

/-- Claim C4 counterexample: for the residual list [1, 1, 4] the robust
scale computed by the source (median of the absolute residuals times
1.4826) is not the median absolute deviation of the residuals (median of
the absolute deviations from the median, which is 0 here) times 1.4826,
and the spike counts obtained from the two scales differ as well. -/
theorem res_sd_ne_spec_mad :
    res_sd [(1 : ℚ), 1, 4] ≠ spec_mad [(1 : ℚ), 1, 4] * (14826 / 10000) ∧
    spike_count [(1 : ℚ), 1, 4]
      ≠ ([(1 : ℚ), 1, 4].countP
          (fun r => |r| > 5 * (spec_mad [(1 : ℚ), 1, 4] * (14826 / 10000)))) := by
  have hsd : res_sd [(1 : ℚ), 1, 4] = 14826 / 10000 := by
    unfold res_sd
    norm_num [npMedian, sortAsc, insertSorted]
  have hmad : spec_mad [(1 : ℚ), 1, 4] = 0 := by
    unfold spec_mad
    norm_num [npMedian, sortAsc, insertSorted]
  constructor
  · rw [hsd, hmad]
    norm_num
  · rw [hmad]
    have hcode : spike_count [(1 : ℚ), 1, 4] = 0 := by
      unfold spike_count
      rw [hsd]
      simp only [List.countP_cons, List.countP_nil, decide_eq_true_eq]
      norm_num
    have hclaim : ([(1 : ℚ), 1, 4].countP (fun r => |r| > 5 * ((0 : ℚ) * (14826 / 10000)))) = 3 := by
      simp only [List.countP_cons, List.countP_nil, decide_eq_true_eq]
      norm_num
    rw [hcode, hclaim]
    norm_num

/-- Claim C4 amended: for every residual sequence, the robust noise scale
of the detrending script equals the median absolute deviation about zero
of the residuals (the median of their absolute values) multiplied by
1.4826, and the spike count equals the number of frames t at which the
absolute residual exceeds 5 times that scale. -/
theorem res_sd_spike_props (res : List ℚ) :
    res_sd res = mad_about_zero res * (14826 / 10000) ∧
    spike_count res
      = ((List.range res.length).filter
          (fun t => |res.getD t 0| > 5 * res_sd res)).length := by
  constructor
  · unfold res_sd mad_about_zero
    simp [sub_zero]
  · rw [spike_count, List.countP_eq_length_filter]
    exact length_filter_eq_range _ 0 res

/-- Helper: length of the successive-difference list. -/
theorem npDiff_length (xs : List ℚ) : (npDiff xs).length = xs.length - 1 := by
  simp only [npDiff, List.length_zipWith, List.length_tail]
  omega

/-- Helper: length of the backward-difference list with leading zero. -/
theorem backdiff_length (xs : List ℚ) : (backdiff xs).length = max 1 xs.length := by
  simp only [backdiff, List.length_cons, npDiff_length]
  omega

/-- Helper: length of one motion-parameter column. -/
theorem column_length (pars : List (Fin 6 → ℚ)) (j : Fin 6) :
    (column pars j).length = pars.length := by
  simp [column]

/-- Helper: interior entries of the backward-difference list. -/
theorem backdiff_getD_succ (xs : List ℚ) (t : ℕ) (h : t + 1 < xs.length) :
    (backdiff xs).getD (t + 1) 0 = xs.getD (t + 1) 0 - xs.getD t 0 := by
  rw [backdiff, List.getD_cons_succ]
  have hl : t < (npDiff xs).length := by rw [npDiff_length]; omega
  rw [List.getD_eq_getElem _ _ hl, List.getD_eq_getElem _ _ (show t + 1 < xs.length by omega),
    List.getD_eq_getElem _ _ (show t < xs.length by omega)]
  simp only [npDiff, List.getElem_zipWith]
  congr 1
  exact List.getElem_tail ..

/-- Helper: entries of one motion-parameter column. -/
theorem column_getD (pars : List (Fin 6 → ℚ)) (j : Fin 6) (t : ℕ) (h : t < pars.length) :
    (column pars j).getD t 0 = (pars.getD t default) j := by
  rw [List.getD_eq_getElem _ _ (show t < (column pars j).length by rw [column_length]; omega),
    List.getD_eq_getElem _ _ h]
  simp [column]

/-- Helper: length of the framewise displacement trace. -/
theorem fd_trace_length (pars : List (Fin 6 → ℚ)) :
    (fd_trace pars).length = max 1 pars.length := by
  simp only [fd_trace, vadd, vabs, vsmul, List.length_zipWith, List.length_map,
    backdiff_length, column_length]
  omega

/-- Helper: the framewise displacement at frame t in terms of the backward
difference columns. -/
theorem fd_trace_getD (pars : List (Fin 6 → ℚ)) (t : ℕ)
    (h : t < (fd_trace pars).length) :
    (fd_trace pars).getD t 0 =
      |(backdiff (column pars 3)).getD t 0| + |(backdiff (column pars 4)).getD t 0|
        + |(backdiff (column pars 5)).getD t 0|
      + r_sphere * (|(backdiff (column pars 0)).getD t 0|
        + |(backdiff (column pars 1)).getD t 0| + |(backdiff (column pars 2)).getD t 0|) := by
  have hb : ∀ j : Fin 6, t < (backdiff (column pars j)).length := by
    intro j
    rw [backdiff_length, column_length]
    rw [fd_trace_length] at h
    omega
  rw [List.getD_eq_getElem _ _ h]
  simp only [fd_trace, vadd, vabs, vsmul, List.getElem_zipWith, List.getElem_map]
  rw [List.getD_eq_getElem _ _ (hb 0), List.getD_eq_getElem _ _ (hb 1),
    List.getD_eq_getElem _ _ (hb 2), List.getD_eq_getElem _ _ (hb 3),
    List.getD_eq_getElem _ _ (hb 4), List.getD_eq_getElem _ _ (hb 5)]

/-- Claim C5: for every 6-parameter motion table, the framewise
displacement trace of calc_fd satisfies FD[0] = 0 and, for each frame
t ≥ 1 below the frame count, FD[t] is the sum of the absolute backward
differences of the three translations plus 50 times the sum of the
absolute backward differences of the three rotations (rotations in
radians, translations in millimeters, frame t minus frame t - 1). -/
theorem fd_trace_props (pars : List (Fin 6 → ℚ)) :
    (fd_trace pars).getD 0 0 = 0 ∧
    ∀ t, 1 ≤ t → t < pars.length →
      (fd_trace pars).getD t 0 =
        |(pars.getD t default) 3 - (pars.getD (t - 1) default) 3|
          + |(pars.getD t default) 4 - (pars.getD (t - 1) default) 4|
          + |(pars.getD t default) 5 - (pars.getD (t - 1) default) 5|
        + 50 * (|(pars.getD t default) 0 - (pars.getD (t - 1) default) 0|
          + |(pars.getD t default) 1 - (pars.getD (t - 1) default) 1|
          + |(pars.getD t default) 2 - (pars.getD (t - 1) default) 2|) := by
  constructor
  · rw [fd_trace_getD pars 0 (by rw [fd_trace_length]; omega)]
    simp [backdiff, r_sphere]
  · intro t h1 h2
    obtain ⟨s, rfl⟩ : ∃ s, t = s + 1 := ⟨t - 1, by omega⟩
    rw [fd_trace_getD pars (s + 1) (by rw [fd_trace_length]; omega)]
    have hcol : ∀ j : Fin 6, s + 1 < (column pars j).length := by
      intro j; rw [column_length]; omega
    rw [backdiff_getD_succ _ _ (hcol 0), backdiff_getD_succ _ _ (hcol 1),
      backdiff_getD_succ _ _ (hcol 2), backdiff_getD_succ _ _ (hcol 3),
      backdiff_getD_succ _ _ (hcol 4), backdiff_getD_succ _ _ (hcol 5)]
    rw [column_getD _ _ _ h2, column_getD _ _ _ h2, column_getD _ _ _ h2,
      column_getD _ _ _ h2, column_getD _ _ _ h2, column_getD _ _ _ h2]
    rw [column_getD _ _ _ (show s < pars.length by omega),
      column_getD _ _ _ (show s < pars.length by omega),
      column_getD _ _ _ (show s < pars.length by omega),
      column_getD _ _ _ (show s < pars.length by omega),
      column_getD _ _ _ (show s < pars.length by omega),
      column_getD _ _ _ (show s < pars.length by omega)]
    simp [r_sphere]

/-- Witness for Claim C5 at the concrete two-frame table demoPars. -/
theorem fd_trace_props_witness :
    (fd_trace demoPars).getD 0 0 = 0 ∧ (fd_trace demoPars).getD 1 0 = 162 := by
  obtain ⟨h0, hgen⟩ := fd_trace_props demoPars
  refine ⟨h0, ?_⟩
  have h := hgen 1 (by norm_num) (by norm_num [demoPars])
  rw [h]
  norm_num [demoPars, show ((0 : Fin 6) : ℕ) = 0 from rfl, show ((1 : Fin 6) : ℕ) = 1 from rfl,
    show ((2 : Fin 6) : ℕ) = 2 from rfl, show ((3 : Fin 6) : ℕ) = 3 from rfl,
    show ((4 : Fin 6) : ℕ) = 4 from rfl, show ((5 : Fin 6) : ℕ) = 5 from rfl]

/-- Claim C6 (code-bug evidence): extract_timeseries, applied to a
concrete motion-corrected 4-D volume and the ROI label volume built from
the all-zero 2 × 2 × 2 input, returns the empty list instead of one mean
trace per label category. -/
theorem extract_timeseries_returns_empty :
    @extract_timeseries (Voxel 2 2 2 → ℕ → ℚ) (Voxel 2 2 2 → ℕ) (List ℚ)
      (fun _ _ => 0) (make_rois zeroLabels) = [] := rfl

/-- Claim C7: for a phantom-mode motion-estimator run on a series with a
single frame, motion correction is a no-op (the output series equals the
input series) and the returned motion table has exactly one record whose
six parameters are all zero, for every clipping, center-of-mass and shift
behaviour of the external library. -/
theorem moco_phantom_single_frame {α : Type} (dflt : α) (clip : List α → List α)
    (com : α → Fin 3 → ℚ) (shiftf : α → (Fin 3 → ℚ) → α) (vox_mm : Fin 3 → ℚ) (v : α) :
    moco_phantom dflt clip com shiftf vox_mm [v] = ([v], [fun _ => 0]) := rfl

/-- Claim C9: for every repetition time of at least 2.5 seconds, the 0.2 Hz
critical frequency of the framewise-displacement low-pass filter is at or
above the Nyquist frequency of the sampling rate 1 / TR, so the scipy
filter design rejects it and calc_fd, and with it moco_postprocess in
non-phantom mode, reports the design error instead of a filtered trace. -/
theorem butter_fails_long_TR (TR : ℚ) (h : 5 / 2 ≤ TR) (filtfilt : List ℚ → List ℚ)
    (pars : List (Fin 6 → ℚ)) :
    (1 / TR) / 2 ≤ 2 / 10 ∧
    butterworth_lpf TR
      = Except.error "Digital filter critical frequencies must be 0 < Wn < fs/2" ∧
    calc_fd filtfilt pars TR
      = Except.error "Digital filter critical frequencies must be 0 < Wn < fs/2" ∧
    moco_postprocess filtfilt pars TR "live"
      = Except.error "Digital filter critical frequencies must be 0 < Wn < fs/2" := by
  have hTR : 0 < TR := lt_of_lt_of_le (by norm_num) h
  have hnyq : (1 / TR) / 2 ≤ 2 / 10 := by
    have h5 : (1 : ℚ) / TR ≤ 2 / 5 := by
      rw [div_le_div_iff₀ hTR (by norm_num)]
      linarith
    linarith
  have hb : butterworth_lpf TR
      = Except.error "Digital filter critical frequencies must be 0 < Wn < fs/2" := by
    simp only [butterworth_lpf]
    rw [if_neg]
    rintro ⟨-, hlt⟩
    linarith
  refine ⟨hnyq, hb, ?_, ?_⟩
  · simp only [calc_fd, hb]
  · simp only [moco_postprocess, calc_fd, hb]
    rw [if_neg (by decide)]

/-- Witness for Claim C9 at the concrete repetition time of 3 seconds. -/
theorem butter_fails_long_TR_witness :
    (5 / 2 : ℚ) ≤ 3 ∧
    ((1 / (3 : ℚ)) / 2 ≤ 2 / 10 ∧
      butterworth_lpf 3
        = Except.error "Digital filter critical frequencies must be 0 < Wn < fs/2" ∧
      calc_fd id [] 3
        = Except.error "Digital filter critical frequencies must be 0 < Wn < fs/2" ∧
      moco_postprocess id [] 3 "live"
        = Except.error "Digital filter critical frequencies must be 0 < Wn < fs/2") :=
  ⟨by norm_num, butter_fails_long_TR 3 (by norm_num) id []⟩

/-- Helper: a map that leaves a list unchanged leaves every element
unchanged. -/
theorem map_eq_self_mem {α : Type} (f : α → α) :
    ∀ l : List α, l.map f = l → ∀ x ∈ l, f x = x := by
  intro l
  induction l with
  | nil => simp
  | cons a l ih =>
    intro h x hx
    rw [List.map_cons, List.cons.injEq] at h
    rcases List.mem_cons.mp hx with hxa | hxl
    · rw [hxa]
      exact h.1
    · exact ih h.2 x hxl

/-- Claim C10: total_rotation mutates its argument: the nt × 3 rotation
array supplied by the caller is rescaled in place by pi / 180, so after
the call the array of the caller holds the radian values, and it differs
from the degree array that was passed in whenever any entry is nonzero. -/
theorem total_rotation_mutates (phi_of : (Fin 3 → ℝ) → ℝ) (rot : List (Fin 3 → ℝ))
    (h : ∃ r ∈ rot, ∃ i, r i ≠ 0) :
    (total_rotation phi_of rot).2 = rot.map (fun r i => r i * (Real.pi / 180)) ∧
    (total_rotation phi_of rot).2 ≠ rot := by
  refine ⟨rfl, ?_⟩
  intro hEq
  obtain ⟨r, hr, i, hi⟩ := h
  have hfr := map_eq_self_mem _ rot hEq r hr
  have hri := congrFun hfr i
  have hone : Real.pi / 180 = 1 := by
    refine mul_left_cancel₀ hi ?_
    rw [mul_one]
    exact hri
  have hpi : Real.pi = 180 := by
    rw [div_eq_iff (show (180 : ℝ) ≠ 0 by norm_num)] at hone
    simp at hone
  have hlt := Real.pi_lt_d2
  rw [hpi] at hlt
  norm_num at hlt

/-- Witness for Claim C10 at the concrete one-row array holding 180
degrees about each axis. -/
theorem total_rotation_mutates_witness :
    (∃ r ∈ [degRow], ∃ i : Fin 3, r i ≠ 0) ∧
    ((total_rotation (fun _ => 0) [degRow]).2
        = [degRow].map (fun r i => r i * (Real.pi / 180)) ∧
      (total_rotation (fun _ => 0) [degRow]).2 ≠ [degRow]) := by
  have hyp : ∃ r ∈ [degRow], ∃ i : Fin 3, r i ≠ 0 :=
    ⟨degRow, by simp, 0, by norm_num [degRow]⟩
  exact ⟨hyp, total_rotation_mutates (fun _ => 0) [degRow] hyp⟩

end CBICQC
